import Mathlib

/-!
Verification development for the snipara-server repository.

The definitions below are shallow embeddings of the Python sources:
machine strings become `List Char` or `String`, floats become `ℚ`,
database tables become association lists threaded through the
operations, and fallible operations return `Option` or explicit result
structures.  Each definition carries the name of the source function it
embeds.  Theorems about the claims follow after all definitions.
-/

/- ============================================================
   JSON values and a model of json.loads
   (used by src/services/swarm_coordinator.py)
   ============================================================ -/

/-- JSON value, the model of the Python values stored in the shared-state
table (Prisma Json column).  Numbers are modelled as rationals. -/
inductive JVal where
  | jnull : JVal
  | jbool : Bool → JVal
  | jnum : ℚ → JVal
  | jstr : String → JVal
  | jarr : List JVal → JVal
  | jobj : List (String × JVal) → JVal

/-- Whitespace skipping for the JSON parser. -/
def skipWs : List Char → List Char
  | [] => []
  | c :: rest =>
      if c = ' ' ∨ c = '\t' ∨ c = '\n' ∨ c = '\r' then skipWs rest else c :: rest

/-- Longest digit run at the head of the input, with the rest. -/
def takeDigits : List Char → List Char × List Char
  | [] => ([], [])
  | c :: rest =>
      if c.isDigit then
        let p := takeDigits rest
        (c :: p.1, p.2)
      else ([], c :: rest)

/-- Numeric value of a digit run. -/
def digitsToNat (ds : List Char) : Nat :=
  ds.foldl (fun a c => a * 10 + (c.toNat - 48)) 0

/-- Fractional part of a JSON number (after the integer digits). -/
def parseFrac : List Char → Option (ℚ × List Char)
  | '.' :: r =>
      let p := takeDigits r
      if p.1.isEmpty then none
      else some ((digitsToNat p.1 : ℚ) / (10 : ℚ) ^ p.1.length, p.2)
  | s => some (0, s)

/-- Exponent part of a JSON number. -/
def parseExp : List Char → Option (ℤ × List Char)
  | [] => some (0, [])
  | c :: r =>
      if c = 'e' ∨ c = 'E' then
        match r with
        | '+' :: r2 =>
            let p := takeDigits r2
            if p.1.isEmpty then none else some ((digitsToNat p.1 : ℤ), p.2)
        | '-' :: r2 =>
            let p := takeDigits r2
            if p.1.isEmpty then none else some (-(digitsToNat p.1 : ℤ), p.2)
        | _ =>
            let p := takeDigits r
            if p.1.isEmpty then none else some ((digitsToNat p.1 : ℤ), p.2)
      else some (0, c :: r)

/-- JSON number parser (sign, integer digits, optional fraction and
exponent). -/
def parseNumber (s : List Char) : Option (ℚ × List Char) :=
  let sp : Bool × List Char := match s with
    | '-' :: r => (true, r)
    | _ => (false, s)
  let dp := takeDigits sp.2
  if dp.1.isEmpty then none
  else
    match parseFrac dp.2 with
    | none => none
    | some (f, s3) =>
        match parseExp s3 with
        | none => none
        | some (e, s4) =>
            let mag : ℚ := ((digitsToNat dp.1 : ℚ) + f) * (10 : ℚ) ^ e
            some (if sp.1 then -mag else mag, s4)

/-- Body of a JSON string literal after the opening quote; fuel-based so
that it reduces in the kernel.  Unicode escapes are kept as the escaped
character itself, which is enough for the claims at hand. -/
def parseStringBody : Nat → List Char → Option (List Char × List Char)
  | _, [] => none
  | 0, _ => none
  | fuel + 1, c :: rest =>
      if c = '"' then some ([], rest)
      else if c = '\\' then
        match rest with
        | [] => none
        | e :: rest2 =>
            let ec :=
              if e = 'n' then '\n'
              else if e = 't' then '\t'
              else if e = 'r' then '\r'
              else if e = 'b' then Char.ofNat 8
              else if e = 'f' then Char.ofNat 12
              else e
            match parseStringBody fuel rest2 with
            | some (cs, r) => some (ec :: cs, r)
            | none => none
      else
        match parseStringBody fuel rest with
        | some (cs, r) => some (c :: cs, r)
        | none => none

mutual

/-- Fuel-based recursive-descent JSON value parser, the model of the
standard library json.loads used by swarm_coordinator. -/
def parseValue : Nat → List Char → Option (JVal × List Char)
  | 0, _ => none
  | fuel + 1, s =>
      match skipWs s with
      | [] => none
      | c :: rest =>
          if c = 'n' then
            if rest.take 3 = ['u', 'l', 'l'] then some (.jnull, rest.drop 3) else none
          else if c = 't' then
            if rest.take 3 = ['r', 'u', 'e'] then some (.jbool true, rest.drop 3) else none
          else if c = 'f' then
            if rest.take 4 = ['a', 'l', 's', 'e'] then some (.jbool false, rest.drop 4) else none
          else if c = '"' then
            match parseStringBody (rest.length + 1) rest with
            | some (cs, r) => some (.jstr (String.mk cs), r)
            | none => none
          else if c = '[' then
            match skipWs rest with
            | ']' :: r => some (.jarr [], r)
            | r2 =>
                match parseItems fuel r2 with
                | some (vs, r) => some (.jarr vs, r)
                | none => none
          else if c = '{' then
            match skipWs rest with
            | '}' :: r => some (.jobj [], r)
            | r2 =>
                match parseFields fuel r2 with
                | some (fs, r) => some (.jobj fs, r)
                | none => none
          else
            match parseNumber (c :: rest) with
            | some (q, r) => some (.jnum q, r)
            | none => none

/-- Comma-separated JSON array items up to the closing bracket. -/
def parseItems : Nat → List Char → Option (List JVal × List Char)
  | 0, _ => none
  | fuel + 1, s =>
      match parseValue fuel s with
      | none => none
      | some (v, r) =>
          match skipWs r with
          | ',' :: r2 =>
              match parseItems fuel r2 with
              | some (vs, r3) => some (v :: vs, r3)
              | none => none
          | ']' :: r2 => some ([v], r2)
          | _ => none

/-- Comma-separated JSON object fields up to the closing brace. -/
def parseFields : Nat → List Char → Option (List (String × JVal) × List Char)
  | 0, _ => none
  | fuel + 1, s =>
      match skipWs s with
      | '"' :: rest =>
          match parseStringBody (rest.length + 1) rest with
          | none => none
          | some (key, r) =>
              match skipWs r with
              | ':' :: r2 =>
                  match parseValue fuel r2 with
                  | none => none
                  | some (v, r3) =>
                      match skipWs r3 with
                      | ',' :: r4 =>
                          match parseFields fuel r4 with
                          | some (fs, r5) => some ((String.mk key, v) :: fs, r5)
                          | none => none
                      | '}' :: r4 => some ([(String.mk key, v)], r4)
                      | _ => none
              | _ => none
      | _ => none

end

/-- Model of json.loads: parse one JSON value and require only
whitespace after it. -/
def jsonLoads (s : String) : Option JVal :=
  match parseValue (s.data.length + 2) s.data with
  | some (v, rest) => if (skipWs rest).isEmpty then some v else none
  | none => none

/- ============================================================
   Shared state (src/services/swarm_coordinator.py)
   ============================================================ -/

/-- Row of the SharedState table for one swarm, as read and written by
swarm_coordinator (the swarm id is fixed, keys are unique per swarm). -/
structure StateEntry where
  key : String
  value : JVal
  version : Nat
  updatedBy : String

/-- Value preparation in set_state: strings are parsed as JSON and fall
back to a raw wrapper, dicts and lists pass through, every other scalar
is wrapped as a value object. -/
def wrapValue (v : JVal) : JVal :=
  match v with
  | .jstr s =>
      match jsonLoads s with
      | some p => p
      | none => .jobj [("raw", .jstr s)]
  | .jobj fs => .jobj fs
  | .jarr xs => .jarr xs
  | other => .jobj [("value", other)]

/-- Replace the first element satisfying the predicate (a database
update keyed on a unique column). -/
def updateFirstBy (p : α → Bool) (f : α → α) : List α → List α
  | [] => []
  | x :: rest => if p x then f x :: rest else x :: updateFirstBy p f rest

/-- Return shape of set_state. -/
structure SetStateResult where
  success : Bool
  version : Option Nat
  current_version : Option Nat
  expected_version : Option Nat

/-- Embedding of swarm_coordinator.set_state restricted to one swarm:
optimistic-locking write of a shared-state key. -/
def set_state (store : List StateEntry) (agent key : String) (value : JVal)
    (expectedVersion : Option Nat) : SetStateResult × List StateEntry :=
  let parsed := wrapValue value
  match store.find? (fun e => e.key == key) with
  | some existing =>
      match expectedVersion with
      | some ev =>
          if existing.version ≠ ev then
            (⟨false, none, some existing.version, some ev⟩, store)
          else
            let nv := existing.version + 1
            (⟨true, some nv, none, none⟩,
              updateFirstBy (fun e => e.key == key) (fun e => ⟨e.key, parsed, nv, agent⟩) store)
      | none =>
          let nv := existing.version + 1
          (⟨true, some nv, none, none⟩,
            updateFirstBy (fun e => e.key == key) (fun e => ⟨e.key, parsed, nv, agent⟩) store)
  | none =>
      (⟨true, some 1, none, none⟩, store ++ [⟨key, parsed, 1, agent⟩])

/-- Wrapper removal shared by get_state and poll_state: a dict with the
single key value or the single key raw is replaced by its inner element. -/
def unwrapValue (v : JVal) : JVal :=
  match v with
  | .jobj [(k, x)] => if k = "value" then x else if k = "raw" then x else .jobj [(k, x)]
  | other => other

/-- Read-side value pipeline of get_state: a stored string is reparsed as
JSON (falling back to itself), then the wrapper is removed. -/
def readValue (stored : JVal) : JVal :=
  let v := match stored with
    | .jstr s =>
        match jsonLoads s with
        | some p => p
        | none => .jstr s
    | other => other
  unwrapValue v

/-- Return shape of get_state. -/
structure GetStateResult where
  found : Bool
  value : Option JVal
  version : Option Nat
  updatedBy : Option String

/-- Embedding of swarm_coordinator.get_state restricted to one swarm. -/
def get_state (store : List StateEntry) (key : String) : GetStateResult :=
  match store.find? (fun e => e.key == key) with
  | none => ⟨false, none, none, none⟩
  | some st => ⟨true, some (readValue st.value), some st.version, some st.updatedBy⟩

/-- Lookup in the last_versions map of poll_state, defaulting to 0. -/
def lastVersionOf (lastVersions : List (String × Nat)) (key : String) : Nat :=
  match lastVersions.find? (fun p => p.1 == key) with
  | some p => p.2
  | none => 0

/-- Changed-key list of poll_state: entries for requested keys whose
version is beyond the supplied last version, with the wrapper removed
(poll_state applies unwrapValue directly, without the string reparse). -/
def poll_state_changed (store : List StateEntry) (keys : List String)
    (lastVersions : List (String × Nat)) : List (String × JVal × Nat) :=
  (store.filter (fun s => keys.contains s.key)).filterMap
    (fun s =>
      if lastVersionOf lastVersions s.key < s.version then
        some (s.key, unwrapValue s.value, s.version)
      else none)

/-- Missing-key list of poll_state: requested keys with no stored entry. -/
def poll_state_missing (store : List StateEntry) (keys : List String) : List String :=
  keys.filter (fun k => ¬ (store.filter (fun s => keys.contains s.key)).any (fun s => s.key == k))

/- ============================================================
   Task queue (src/services/swarm_coordinator.py)
   ============================================================ -/

/-- Task state machine of the swarm task queue. -/
inductive TaskStatus where
  | PENDING
  | IN_PROGRESS
  | COMPLETED
  | FAILED
deriving DecidableEq

/-- Row of the SwarmAgent table: an agent registration in a swarm. -/
structure SwarmAgent where
  id : String
  swarmId : String
  agentId : String
  isActive : Bool
deriving DecidableEq

/-- Row of the SwarmTask table. -/
structure SwarmTask where
  id : String
  swarmId : String
  title : String
  status : TaskStatus
  priority : Int
  assignedTo : Option String
  dependsOn : List String
deriving DecidableEq

/-- Active-agent lookup shared by the coordinator entry points. -/
def find_active_agent (agents : List SwarmAgent) (swarmId agentId : String) :
    Option SwarmAgent :=
  agents.find? (fun a => a.swarmId == swarmId && a.agentId == agentId && a.isActive)

/-- Return shape of complete_task. -/
structure CompleteResult where
  success : Bool
  error : Option String
  task_id : Option String
  status : Option TaskStatus

/-- Embedding of swarm_coordinator.complete_task: only the assignee of an
IN_PROGRESS task may complete it; the task becomes COMPLETED on success
and FAILED otherwise.  The returned dictionary carries no
unblocked_tasks field. -/
def complete_task (agents : List SwarmAgent) (tasks : List SwarmTask)
    (swarmId agentId taskId : String) (success : Bool) :
    CompleteResult × List SwarmTask :=
  match find_active_agent agents swarmId agentId with
  | none => (⟨false, some "Agent not in swarm", none, none⟩, tasks)
  | some agent =>
      match tasks.find? (fun t => t.id == taskId && t.swarmId == swarmId &&
          t.assignedTo == some agent.id && t.status == TaskStatus.IN_PROGRESS) with
      | none => (⟨false, some "Task not found or not assigned to agent", none, none⟩, tasks)
      | some task =>
          let status := if success then TaskStatus.COMPLETED else TaskStatus.FAILED
          (⟨true, none, some taskId, some status⟩,
            updateFirstBy (fun t => t.id == task.id)
              (fun t => ⟨t.id, t.swarmId, t.title, status, t.priority, t.assignedTo, t.dependsOn⟩)
              tasks)

/-- Dependency check: every listed task id has a COMPLETED task. -/
def depsCompleted (tasks : List SwarmTask) (deps : List String) : Bool :=
  deps.all (fun d => tasks.any (fun t => t.id == d && t.status == TaskStatus.COMPLETED))

/-- Modelled from the spec: the tool-level task completion
(handle_task_complete, imported from src/engine/handlers/swarm.py, a
module that is not among the source files).  Per the spec it performs
the coordinator completion and returns unblocked_tasks: every PENDING
task whose depends_on is now fully COMPLETED. -/
def handle_task_complete (agents : List SwarmAgent) (tasks : List SwarmTask)
    (swarmId agentId taskId : String) (success : Bool) :
    CompleteResult × List String × List SwarmTask :=
  let r := complete_task agents tasks swarmId agentId taskId success
  if r.1.success then
    let unblocked := (r.2.filter (fun t => t.swarmId == swarmId &&
        t.status == TaskStatus.PENDING && depsCompleted r.2 t.dependsOn)).map (fun t => t.id)
    (r.1, unblocked, r.2)
  else
    (r.1, [], r.2)

/- ============================================================
   Document upload (src/engine/handlers/document.py)
   ============================================================ -/

/-- Row of the Document table. -/
structure Document where
  id : String
  projectId : String
  path : String
  content : String
  hash : String
  size : Nat

/-- Suffix test on character lists (the endswith check of the handler). -/
def endsWithL (s suf : List Char) : Bool :=
  suf.isSuffixOf s

/-- Outcome classification of handle_upload_document. -/
inductive UploadAction where
  | errorMissing
  | errorType
  | unchanged
  | updated
  | created
deriving DecidableEq

/-- Observable outcome of handle_upload_document: the reported action,
whether the index-invalidation callback was invoked, and the document
table afterwards. -/
structure UploadOutcome where
  action : UploadAction
  invalidated : Bool
  docs : List Document

/-- Embedding of document.handle_upload_document.  The sha256 function of
hashlib is an opaque-function parameter; newId stands for the id the
database assigns on create. -/
def handle_upload_document (sha256 : String → String) (newId : String)
    (docs : List Document) (projectId path content : String) : UploadOutcome :=
  if path = "" ∨ content = "" then ⟨.errorMissing, false, docs⟩
  else if ¬ (endsWithL path.data ".md".data ∨ endsWithL path.data ".txt".data ∨
      endsWithL path.data ".mdx".data) then ⟨.errorType, false, docs⟩
  else
    let contentHash := sha256 content
    let size := content.utf8ByteSize
    match docs.find? (fun d => d.projectId == projectId && d.path == path) with
    | some existing =>
        if existing.hash = contentHash then ⟨.unchanged, false, docs⟩
        else
          ⟨.updated, true,
            updateFirstBy (fun d => d.id == existing.id)
              (fun d => ⟨d.id, d.projectId, d.path, content, contentHash, size⟩) docs⟩
    | none =>
        ⟨.created, true, docs ++ [⟨newId, projectId, path, content, contentHash, size⟩]⟩

/- ============================================================
   Error sanitization (src/api/deps.py)
   ============================================================ -/

/-- ASCII lowering of a character list (the Python str.lower calls). -/
def lowerL (s : List Char) : List Char :=
  s.map Char.toLower

/-- Substring test: the Python in operator on strings. -/
def containsSub : List Char → List Char → Bool
  | [], pat => pat.isEmpty
  | c :: rest, pat => pat.isPrefixOf (c :: rest) || containsSub rest pat

/-- The static allow-list of deps.sanitize_error_message. -/
def safePatterns : List String :=
  ["Invalid API key",
   "Project not found",
   "Rate limit exceeded",
   "Monthly usage limit exceeded",
   "Invalid tool name",
   "Invalid regex pattern",
   "No documentation loaded",
   "Unknown tool",
   "Invalid parameter",
   "Token budget",
   "Plan does not support"]

/-- The generic fallback message of deps.sanitize_error_message. -/
def genericErrorMessage : String :=
  "An error occurred processing your request. Please try again."

/-- Embedding of deps.sanitize_error_message on the string of the
exception: a case-insensitive allow-list pass-through, generic message
otherwise. -/
def sanitize_error_message (errorStr : String) : String :=
  if safePatterns.any (fun p => containsSub (lowerL errorStr.data) (lowerL p.data)) then
    errorStr
  else genericErrorMessage

/- ============================================================
   Context assembler (spec section 4.6)
   ============================================================ -/

/-- Modelled from the spec: the budget walk of the context assembler.
The assembler module itself is not among the source files (only its
result models in src/models/context.py and the query classifiers in
src/engine/core/query.py are), so the walk is modelled from the words of
spec section 4.6: sections are taken in rank order and included whole
while they fit; for an abstract query the minimum delivered-section
count is raised to 5, accepting at most one over-budget section when the
over-run stays within 20 percent; otherwise a single tail-truncation to
the remaining budget is attempted and the walk stops.  Entries are
(section id, token count); the Bool marks truncation. -/
def assembleGo (B : Nat) (isAbstract : Bool) :
    Nat → Nat → List (String × Nat) → List (String × Nat × Bool)
  | _, _, [] => []
  | used, cnt, (sid, t) :: rest =>
      if used + t ≤ B then
        (sid, t, false) :: assembleGo B isAbstract (used + t) (cnt + 1) rest
      else if isAbstract ∧ cnt < 5 ∧ 10 * (used + t) ≤ 12 * B then
        [(sid, t, false)]
      else if used < B then
        [(sid, B - used, true)]
      else []

/-- Modelled from the spec: assembled sections for a ranked list and a
token budget. -/
def assembleSections (B : Nat) (isAbstract : Bool) (ranked : List (String × Nat)) :
    List (String × Nat × Bool) :=
  assembleGo B isAbstract 0 0 ranked

/-- Token total of an assembled result. -/
def totalTokens (out : List (String × Nat × Bool)) : Nat :=
  (out.map (fun s => s.2.1)).sum

/- ============================================================
   Stemmer (src/engine/scoring/stemmer.py)
   ============================================================ -/

/-- Embedding of stemmer.stem_keyword: deterministic suffix stripper
with minimum-length guards, longer suffixes first. -/
def stem_keyword (w0 : List Char) : List Char :=
  let w := lowerL w0
  if 7 < w.length ∧ endsWithL w "tion".data then w.take (w.length - 4)
  else if 7 < w.length ∧ endsWithL w "ment".data then w.take (w.length - 4)
  else if 7 < w.length ∧ endsWithL w "ness".data then w.take (w.length - 4)
  else if 7 < w.length ∧ endsWithL w "ible".data then w.take (w.length - 4)
  else if 7 < w.length ∧ endsWithL w "able".data then w.take (w.length - 4)
  else if 6 < w.length ∧ endsWithL w "ing".data then w.take (w.length - 3)
  else if 6 < w.length ∧ endsWithL w "ies".data then w.take (w.length - 3)
  else if 5 < w.length ∧ endsWithL w "ed".data ∧ ¬ endsWithL w "eed".data then
    w.take (w.length - 2)
  else if 5 < w.length ∧ endsWithL w "er".data then w.take (w.length - 2)
  else if 5 < w.length ∧ endsWithL w "ly".data then w.take (w.length - 2)
  else if 5 < w.length ∧ endsWithL w "es".data then w.take (w.length - 2)
  else if 4 < w.length ∧ endsWithL w "s".data ∧ ¬ endsWithL w "ss".data then
    w.take (w.length - 1)
  else if 4 < w.length ∧ endsWithL w "e".data ∧ ¬ endsWithL w "ee".data then
    w.take (w.length - 1)
  else w

/- ============================================================
   Keyword scorer (src/engine/scoring/keyword_scorer.py and
   src/engine/scoring/constants.py)
   ============================================================ -/

/-- Embedding of the Section dataclass of src/engine/core/document.py. -/
structure Section where
  id : String
  title : String
  content : String
  start_line : Nat
  end_line : Nat
  level : Nat

/-- Non-overlapping left-to-right occurrence count, fuel-based: the
Python str.count. -/
def countOccurGo (pat : List Char) : Nat → List Char → Nat
  | _, [] => 0
  | 0, _ => 0
  | fuel + 1, c :: rest =>
      if pat.isPrefixOf (c :: rest) then
        1 + countOccurGo pat fuel (List.drop (pat.length - 1) rest)
      else countOccurGo pat fuel rest

/-- The Python str.count, including the empty-pattern convention. -/
def countOccur (hay pat : List Char) : Nat :=
  if pat.isEmpty then hay.length + 1 else countOccurGo pat (hay.length + 1) hay

/-- Embedding of constants.GENERIC_TITLE_TERMS. -/
def GENERIC_TITLE_TERMS : List (List Char) :=
  ["snipara".data, "rlm".data, "mcp".data,
   "tools".data, "tool".data, "guide".data, "reference".data, "overview".data,
   "docs".data,
   "how".data, "what".data, "when".data, "where".data, "why".data,
   "using".data, "use".data, "get".data, "set".data, "run".data, "make".data,
   "available".data, "not".data, "error".data, "issue".data, "troubleshoot".data]

/-- BM25-style length normalizer of calculate_keyword_score with
avgdl 2000 characters, floored at 0.15. -/
def lengthNormOf (contentLen : Nat) : ℚ :=
  max (1 / (1 + (3 : ℚ)/4 * ((contentLen : ℚ) / 2000 - 1))) (15/100)

/-- Effective occurrence count of calculate_keyword_score: the keyword
itself, falling back to its stem when the keyword does not occur and the
stem differs. -/
def effCount (hay kw stem : List Char) : Nat :=
  let c := countOccur hay kw
  if c = 0 ∧ stem ≠ kw then countOccur hay stem else c

/-- Per-keyword step of the scoring loop of calculate_keyword_score,
carrying (score, title_keyword_hits). -/
def kwScoreStep (titleL contentL : List Char) (lnorm : ℚ) (st : ℚ × Nat)
    (kw : List Char) : ℚ × Nat :=
  if kw.length < 2 then st
  else
    let stem := stem_keyword kw
    let titleCount := effCount titleL kw stem
    let st1 :=
      if 0 < titleCount then
        if GENERIC_TITLE_TERMS.contains kw ∨ GENERIC_TITLE_TERMS.contains stem then
          (st.1 + (titleCount : ℚ) * (3/2), st.2 + 1)
        else (st.1 + (titleCount : ℚ) * 5, st.2 + 1)
      else st
    let contentCount := effCount contentL kw stem
    (st1.1 + (contentCount : ℚ) * lnorm, st1.2)

/-- Embedding of keyword_scorer.calculate_keyword_score at its default
is_list_query_flag = False (under which the list-pattern boost branch is
not taken): per-keyword title and length-normalized content hits, level
bonus, title-coverage boost and exact-phrase boost. -/
def calculate_keyword_score (s : Section) (keywords : List (List Char)) : ℚ :=
  let titleL := lowerL s.title.data
  let contentL := lowerL s.content.data
  let lnorm := lengthNormOf contentL.length
  let st := keywords.foldl (kwScoreStep titleL contentL lnorm) (0, 0)
  let levelBonus : ℚ := ((4 - s.level : Nat) : ℚ) * (1/2)
  let score1 := if 0 < st.1 then st.1 + levelBonus else st.1
  let score2 := if 2 ≤ st.2 then score1 * (1 + (st.2 : ℚ) * 2) else score1
  let qws := keywords.filter (fun w => 3 ≤ w.length)
  if 2 ≤ qws.length ∧ containsSub titleL (lowerL (List.intercalate [' '] (qws.take 4))) then
    score2 * 3
  else score2

/-- Refinement comparison definition following the words of the spec
(not a source translation): a title hit weighs 5.0 when the keyword is
distinctive, that is in neither the static generic-term set nor the
ubiquitous-keyword set of the index, else 1.5. -/
def kwScoreStepSpec (ubiq : List (List Char)) (titleL contentL : List Char) (lnorm : ℚ)
    (st : ℚ × Nat) (kw : List Char) : ℚ × Nat :=
  if kw.length < 2 then st
  else
    let stem := stem_keyword kw
    let titleCount := effCount titleL kw stem
    let st1 :=
      if 0 < titleCount then
        if GENERIC_TITLE_TERMS.contains kw ∨ ubiq.contains kw then
          (st.1 + (titleCount : ℚ) * (3/2), st.2 + 1)
        else (st.1 + (titleCount : ℚ) * 5, st.2 + 1)
      else st
    let contentCount := effCount contentL kw stem
    (st1.1 + (contentCount : ℚ) * lnorm, st1.2)

/-- Refinement comparison definition following the words of the spec:
calculate_keyword_score with the spec title-weight rule, taking the
ubiquitous set of the index into account. -/
def calculate_keyword_score_spec (ubiq : List (List Char)) (s : Section)
    (keywords : List (List Char)) : ℚ :=
  let titleL := lowerL s.title.data
  let contentL := lowerL s.content.data
  let lnorm := lengthNormOf contentL.length
  let st := keywords.foldl (kwScoreStepSpec ubiq titleL contentL lnorm) (0, 0)
  let levelBonus : ℚ := ((4 - s.level : Nat) : ℚ) * (1/2)
  let score1 := if 0 < st.1 then st.1 + levelBonus else st.1
  let score2 := if 2 ≤ st.2 then score1 * (1 + (st.2 : ℚ) * 2) else score1
  let qws := keywords.filter (fun w => 3 ≤ w.length)
  if 2 ≤ qws.length ∧ containsSub titleL (lowerL (List.intercalate [' '] (qws.take 4))) then
    score2 * 3
  else score2

/- ============================================================
   RRF fusion and graded normalization
   (src/engine/scoring/rrf_fusion.py)
   ============================================================ -/

/-- Descending-score order on (section id, score) pairs, the sort key of
rrf_fusion. -/
def scoreGe (a b : String × ℚ) : Prop := b.2 ≤ a.2

instance : DecidableRel scoreGe :=
  fun a b => inferInstanceAs (Decidable (b.2 ≤ a.2))

instance : IsTotal (String × ℚ) scoreGe :=
  ⟨fun a b => le_total b.2 a.2⟩

instance : IsTrans (String × ℚ) scoreGe :=
  ⟨fun _ _ _ h1 h2 => le_trans h2 h1⟩

/-- Positive-score entries sorted descending (stable), the ranking
construction of rrf_fusion. -/
def posRanked (scores : List (String × ℚ)) : List (String × ℚ) :=
  List.insertionSort scoreGe (scores.filter (fun p => 0 < p.2))

/-- One-based rank of a section id in a ranking; ids absent from the
ranking receive the pessimistic rank length + 1. -/
def rankOf (ranked : List (String × ℚ)) (sid : String) : Nat :=
  match (ranked.map Prod.fst).findIdx? (fun x => x == sid) with
  | some i => i + 1
  | none => ranked.length + 1

/-- Embedding of rrf_fusion.rrf_fusion: reciprocal-rank fusion of the
keyword and semantic rankings over the union of their ids, sorted
descending by fused score. -/
def rrf_fusion (keyword_scores semantic_scores : List (String × ℚ))
    (keyword_weight semantic_weight k : ℚ) : List (String × ℚ) :=
  let kwRanked := posRanked keyword_scores
  let semRanked := posRanked semantic_scores
  let kwIds := kwRanked.map Prod.fst
  let semIds := semRanked.map Prod.fst
  let allIds := kwIds ++ semIds.filter (fun sid => ¬ kwIds.contains sid)
  let scored := allIds.map (fun sid =>
    (sid, keyword_weight / (k + (rankOf kwRanked sid : ℚ)) +
      semantic_weight / (k + (rankOf semRanked sid : ℚ))))
  List.insertionSort scoreGe scored

/-- Round half to even on rationals, the model of the Python round. -/
def rndHalfEven (x : ℚ) : ℤ :=
  if x - ⌊x⌋ < 1/2 then ⌊x⌋
  else if (1 : ℚ)/2 < x - ⌊x⌋ then ⌊x⌋ + 1
  else if 2 ∣ ⌊x⌋ then ⌊x⌋ else ⌊x⌋ + 1

/-- The Python round(x, 1). -/
def pyRound1 (x : ℚ) : ℚ :=
  (rndHalfEven (10 * x) : ℚ) / 10

/-- Grade of a non-top entry of normalize_scores_graded at one-based
index i: combine the rank decay with the score ratio, round to one
decimal, floor at 1. -/
def gradeAt (top d : ℚ) (i : Nat) (raw : ℚ) : ℚ :=
  let rankFactor := d ^ i
  let scoreFactor := if 0 < top then raw / top else 0
  let graded := 100 * ((2 : ℚ)/5 * rankFactor + 3/5 * scoreFactor)
  max (pyRound1 graded) 1

/-- Tail loop of normalize_scores_graded over one-based indices. -/
def normGo (top d : ℚ) : Nat → List (String × ℚ) → List (String × ℚ)
  | _, [] => []
  | i, (sid, raw) :: rest =>
      (sid, gradeAt top d i raw) :: normGo top d (i + 1) rest

/-- Embedding of rrf_fusion.normalize_scores_graded: the top entry gets
100 and every later entry a graded, floored score. -/
def normalize_scores_graded (scores : List (String × ℚ)) (decay_factor : ℚ) :
    List (String × ℚ) :=
  match scores with
  | [] => []
  | (sid, s) :: rest =>
      let top := if 0 < s then s else 1
      (sid, 100) :: normGo top decay_factor 1 rest

/- ============================================================
   Helper lemmas
   ============================================================ -/

theorem find?_updateFirstBy_self (P : α → Bool) (f : α → α) (l : List α) (x : α)
    (hfind : l.find? P = some x) (hPf : P (f x) = true) :
    (updateFirstBy P f l).find? P = some (f x) := by
  induction l with
  | nil => simp at hfind
  | cons a rest ih =>
      cases h : P a with
      | true =>
          rw [List.find?_cons_of_pos _ h] at hfind
          obtain rfl : a = x := by injection hfind
          simp [updateFirstBy, h, List.find?_cons_of_pos _ hPf]
      | false =>
          rw [List.find?_cons_of_neg _ (by simp [h])] at hfind
          simp only [updateFirstBy, h, if_false, Bool.false_eq_true]
          rw [List.find?_cons_of_neg _ (by simp [h])]
          exact ih hfind

theorem find?_keyed_of_mem_nodup {κ : Type} [BEq κ] [LawfulBEq κ]
    (keyOf : α → κ) (l : List α) (x : α)
    (hx : x ∈ l) (hnd : (l.map keyOf).Nodup) :
    l.find? (fun a => keyOf a == keyOf x) = some x := by
  induction l with
  | nil => simp at hx
  | cons a rest ih =>
      simp only [List.map_cons, List.nodup_cons] at hnd
      rcases List.mem_cons.mp hx with rfl | hmem
      · exact List.find?_cons_of_pos _ (by simp)
      · have hne : keyOf a ≠ keyOf x := by
          intro he
          exact hnd.1 (he ▸ List.mem_map_of_mem keyOf hmem)
        rw [List.find?_cons_of_neg _ (by simp [hne])]
        exact ih hmem hnd.2

theorem find?_updateFirstBy_keyed {κ : Type} [BEq κ] [LawfulBEq κ]
    (keyOf : α → κ) (P : α → Bool) (f : α → α) (l : List α) (x : α)
    (hfind : l.find? P = some x) (hnd : (l.map keyOf).Nodup) (hPf : P (f x) = true) :
    (updateFirstBy (fun a => keyOf a == keyOf x) f l).find? P = some (f x) := by
  induction l with
  | nil => simp at hfind
  | cons a rest ih =>
      simp only [List.map_cons, List.nodup_cons] at hnd
      cases h : P a with
      | true =>
          rw [List.find?_cons_of_pos _ h] at hfind
          obtain rfl : a = x := by injection hfind
          simp only [updateFirstBy, beq_self_eq_true, if_true]
          exact List.find?_cons_of_pos _ hPf
      | false =>
          rw [List.find?_cons_of_neg _ (by simp [h])] at hfind
          have hmem : x ∈ rest := List.mem_of_find?_eq_some hfind
          have hne : keyOf a ≠ keyOf x := by
            intro he
            exact hnd.1 (he ▸ List.mem_map_of_mem keyOf hmem)
          simp only [updateFirstBy, beq_eq_false_iff_ne.mpr hne, if_false, Bool.false_eq_true]
          rw [List.find?_cons_of_neg _ (by simp [h])]
          exact ih hfind hnd.2

theorem find?_append_of_none (P : α → Bool) (l1 l2 : List α)
    (h : l1.find? P = none) : (l1 ++ l2).find? P = l2.find? P := by
  rw [List.find?_append, h, Option.none_or]

/- ============================================================
   Claims
   ============================================================ -/

/-- C3: for an existing shared-state entry with stored version v,
set_state with a mismatching expected version fails with a conflict
carrying current_version v and the supplied expected version and leaves
the store unchanged; with a matching or omitted expected version it
persists the wrapped value and returns success with version v + 1; the
first successful write of a key returns version 1. -/
theorem set_state_optimistic_cas
    (store : List StateEntry) (agent key : String) (value : JVal)
    (st : StateEntry) (e : Nat)
    (hfind : store.find? (fun x => x.key == key) = some st) :
    (e ≠ st.version →
      set_state store agent key value (some e) =
        (⟨false, none, some st.version, some e⟩, store)) ∧
    (e = st.version →
      set_state store agent key value (some e) =
        (⟨true, some (st.version + 1), none, none⟩,
          updateFirstBy (fun x => x.key == key)
            (fun x => ⟨x.key, wrapValue value, st.version + 1, agent⟩) store) ∧
      (set_state store agent key value (some e)).2.find? (fun x => x.key == key) =
        some ⟨st.key, wrapValue value, st.version + 1, agent⟩) ∧
    ((set_state store agent key value none).1 = ⟨true, some (st.version + 1), none, none⟩ ∧
      (set_state store agent key value none).2.find? (fun x => x.key == key) =
        some ⟨st.key, wrapValue value, st.version + 1, agent⟩) ∧
    (∀ store0 : List StateEntry, store0.find? (fun x => x.key == key) = none →
      (set_state store0 agent key value (some e)).1 = ⟨true, some 1, none, none⟩ ∧
      (set_state store0 agent key value (some e)).2.find? (fun x => x.key == key) =
        some ⟨key, wrapValue value, 1, agent⟩) := by
  have hPst : (st.key == key) = true := by
    have h := List.find?_some hfind
    simpa using h
  refine ⟨?_, ?_, ?_, ?_⟩
  · intro hne
    simp [set_state, hfind, Ne.symm hne]
  · intro he
    subst he
    constructor
    · simp [set_state, hfind]
    · simp only [set_state, hfind]
      rw [if_neg (by simp)]
      exact find?_updateFirstBy_self _ _ _ _ hfind (by simpa using hPst)
  · constructor
    · simp [set_state, hfind]
    · simp only [set_state, hfind]
      exact find?_updateFirstBy_self _ _ _ _ hfind (by simpa using hPst)
  · intro store0 h0
    constructor
    · simp [set_state, h0]
    · simp only [set_state, h0]
      rw [find?_append_of_none _ _ _ h0]
      simp [List.find?_cons_of_pos]

/-- Witness for set_state_optimistic_cas at a one-entry store. -/
theorem set_state_optimistic_cas_witness :
    set_state [⟨"x", JVal.jnum 1, 1, "agentA"⟩] "agentB" "x" (JVal.jnum 2) (some 0) =
      (⟨false, none, some 1, some 0⟩, [⟨"x", JVal.jnum 1, 1, "agentA"⟩]) :=
  (set_state_optimistic_cas [⟨"x", JVal.jnum 1, 1, "agentA"⟩] "agentB" "x"
    (JVal.jnum 2) ⟨"x", JVal.jnum 1, 1, "agentA"⟩ 0 rfl).1 (by decide)

/-- Read-after-write helper: after a set_state without expected version,
the key resolves to the wrapped value run through the read pipeline. -/
theorem set_state_roundtrip_value (store : List StateEntry) (agent key : String) (value : JVal) :
    (get_state (set_state store agent key value none).2 key).value =
      some (readValue (wrapValue value)) := by
  cases hfind : store.find? (fun e => e.key == key) with
  | some st =>
      have hPst : (st.key == key) = true := by simpa using List.find?_some hfind
      have h2 := find?_updateFirstBy_self (fun e => e.key == key)
        (fun e => ⟨e.key, wrapValue value, st.version + 1, agent⟩) store st hfind
        (by simpa using hPst)
      simp [set_state, hfind, get_state, h2]
  | none =>
      simp [set_state, hfind, get_state, find?_append_of_none _ _ _ hfind,
        List.find?_cons_of_pos]

/-- C7 counterexample: the string value "1" does not round-trip through
set_state and get_state; it is parsed as JSON on write and comes back as
the number 1. -/
theorem set_get_roundtrip_counterexample :
    (get_state (set_state [] "agentA" "k" (JVal.jstr "1") none).2 "k").value =
      some (JVal.jnum 1) ∧
    some (JVal.jnum 1) ≠ some (JVal.jstr "1") := by
  constructor
  · rw [set_state_roundtrip_value]
    have h1 : jsonLoads "1" = some (JVal.jnum 1) := by
      simp [jsonLoads, parseValue, skipWs, parseNumber, takeDigits, digitsToNat,
        parseFrac, parseExp]
    simp [wrapValue, h1, readValue, unwrapValue]
  · simp

/-- C7 as amended: set_state followed by get_state returns the written
value for non-string scalars (booleans, numbers, null) and for strings
that do not parse as JSON; a JSON-parseable string is returned as its
parsed value instead. -/
theorem set_get_roundtrip_scalars_and_raw_strings
    (store : List StateEntry) (agent key : String) :
    (∀ b : Bool,
      (get_state (set_state store agent key (JVal.jbool b) none).2 key).value =
        some (JVal.jbool b)) ∧
    (∀ q : ℚ,
      (get_state (set_state store agent key (JVal.jnum q) none).2 key).value =
        some (JVal.jnum q)) ∧
    ((get_state (set_state store agent key JVal.jnull none).2 key).value =
      some JVal.jnull) ∧
    (∀ s : String, jsonLoads s = none →
      (get_state (set_state store agent key (JVal.jstr s) none).2 key).value =
        some (JVal.jstr s)) := by
  refine ⟨fun b => ?_, fun q => ?_, ?_, fun s hs => ?_⟩ <;>
    rw [set_state_roundtrip_value]
  · simp [wrapValue, readValue, unwrapValue]
  · simp [wrapValue, readValue, unwrapValue]
  · simp [wrapValue, readValue, unwrapValue]
  · simp [wrapValue, readValue, unwrapValue, hs]

/-- Witness for set_get_roundtrip_scalars_and_raw_strings on a string
that is not JSON. -/
theorem set_get_roundtrip_scalars_and_raw_strings_witness :
    (get_state (set_state [] "agentA" "k" (JVal.jstr "hello") none).2 "k").value =
      some (JVal.jstr "hello") :=
  (set_get_roundtrip_scalars_and_raw_strings [] "agentA" "k").2.2.2 "hello" (by
    simp [jsonLoads, parseValue, skipWs, parseNumber, takeDigits, digitsToNat,
      parseFrac, parseExp])

/-- C10: get_state and poll_state unwrap any stored one-key value or raw
dict, whatever wrote it; in particular writing the dict with single key
value and reading back yields the inner element. -/
theorem state_wrappers_unwrapped_on_read
    (store : List StateEntry) (key : String) (st : StateEntry) (x : JVal)
    (hfind : store.find? (fun e => e.key == key) = some st) :
    (st.value = JVal.jobj [("value", x)] → (get_state store key).value = some x) ∧
    (st.value = JVal.jobj [("raw", x)] → (get_state store key).value = some x) ∧
    (∀ (keys : List String) (lastVersions : List (String × Nat)),
      key ∈ keys → lastVersionOf lastVersions key < st.version →
      (st.value = JVal.jobj [("value", x)] ∨ st.value = JVal.jobj [("raw", x)]) →
      (key, x, st.version) ∈ poll_state_changed store keys lastVersions) ∧
    (∀ agent v,
      (get_state (set_state store agent key (JVal.jobj [("value", v)]) none).2 key).value =
        some v) := by
  have hkey : st.key = key := by
    have h := List.find?_some hfind
    simpa using h
  refine ⟨fun hv => ?_, fun hv => ?_, fun keys lastVersions hk hver hv => ?_, fun agent v => ?_⟩
  · simp [get_state, hfind, readValue, hv, unwrapValue]
  · simp [get_state, hfind, readValue, hv, unwrapValue]
  · have hmem : st ∈ store := List.mem_of_find?_eq_some hfind
    have hunwrap : unwrapValue st.value = x := by
      rcases hv with hv | hv <;> simp [hv, unwrapValue]
    rw [poll_state_changed, List.mem_filterMap]
    refine ⟨st, ?_, ?_⟩
    · rw [List.mem_filter]
      exact ⟨hmem, by simp [hkey, hk]⟩
    · rw [if_pos (by rwa [hkey])]
      rw [hunwrap, hkey]
  · rw [set_state_roundtrip_value]
    simp [wrapValue, readValue, unwrapValue]

/-- Witness for state_wrappers_unwrapped_on_read on a one-entry store. -/
theorem state_wrappers_unwrapped_on_read_witness :
    (get_state [⟨"k", JVal.jobj [("value", JVal.jnum 7)], 3, "w"⟩] "k").value =
      some (JVal.jnum 7) :=
  (state_wrappers_unwrapped_on_read [⟨"k", JVal.jobj [("value", JVal.jnum 7)], 3, "w"⟩]
    "k" ⟨"k", JVal.jobj [("value", JVal.jnum 7)], 3, "w"⟩ (JVal.jnum 7) rfl).1 rfl

/-- Characterization of the unblocked-task list over a task table: an id
is listed exactly when its task is PENDING in the swarm with every
dependency COMPLETED. -/
theorem unblocked_tasks_characterization (tasks2 : List SwarmTask) (swarmId : String) :
    (∀ u ∈ tasks2, u.swarmId = swarmId → u.status = TaskStatus.PENDING →
      (∀ d ∈ u.dependsOn, ∃ c ∈ tasks2, c.id = d ∧ c.status = TaskStatus.COMPLETED) →
      u.id ∈ (tasks2.filter (fun v => v.swarmId == swarmId &&
        v.status == TaskStatus.PENDING && depsCompleted tasks2 v.dependsOn)).map
          (fun v => v.id)) ∧
    (∀ uid ∈ (tasks2.filter (fun v => v.swarmId == swarmId &&
        v.status == TaskStatus.PENDING && depsCompleted tasks2 v.dependsOn)).map
          (fun v => v.id),
      ∃ u ∈ tasks2, u.id = uid ∧ u.swarmId = swarmId ∧ u.status = TaskStatus.PENDING ∧
        (∀ d ∈ u.dependsOn, ∃ c ∈ tasks2, c.id = d ∧ c.status = TaskStatus.COMPLETED)) := by
  constructor
  · intro u hu hswarm hpend hdeps
    rw [List.mem_map]
    refine ⟨u, ?_, rfl⟩
    rw [List.mem_filter]
    refine ⟨hu, ?_⟩
    have hdc : depsCompleted tasks2 u.dependsOn = true := by
      rw [depsCompleted, List.all_eq_true]
      intro d hd
      obtain ⟨c, hc, hcid, hcst⟩ := hdeps d hd
      rw [List.any_eq_true]
      exact ⟨c, hc, by simp [hcid, hcst]⟩
    simp [hswarm, hpend, hdc]
  · intro uid huid
    rw [List.mem_map] at huid
    obtain ⟨u, hu, rfl⟩ := huid
    rw [List.mem_filter] at hu
    have h2 := hu.2
    simp only [Bool.and_eq_true, beq_iff_eq] at h2
    refine ⟨u, hu.1, rfl, h2.1.1, h2.1.2, ?_⟩
    have hall := h2.2
    rw [depsCompleted, List.all_eq_true] at hall
    intro d hd
    have h3 := hall d hd
    rw [List.any_eq_true] at h3
    obtain ⟨c, hc, hcb⟩ := h3
    simp only [Bool.and_eq_true, beq_iff_eq] at hcb
    exact ⟨c, hc, hcb.1, hcb.2⟩

/-- C2: completing an IN_PROGRESS task assigned to the calling agent
transitions it to COMPLETED on success and FAILED otherwise, and the
returned unblocked_tasks contains exactly the ids of the PENDING tasks
of the swarm whose dependencies are all COMPLETED after the completion.
The unblocked_tasks computation lives in the task-complete handler,
which is modelled from the spec (see handle_task_complete). -/
theorem task_complete_transitions_and_unblocked
    (agents : List SwarmAgent) (tasks : List SwarmTask)
    (swarmId agentId taskId : String) (success : Bool)
    (ag : SwarmAgent) (t : SwarmTask)
    (hag : find_active_agent agents swarmId agentId = some ag)
    (ht : tasks.find? (fun u => u.id == taskId && u.swarmId == swarmId &&
        u.assignedTo == some ag.id && u.status == TaskStatus.IN_PROGRESS) = some t)
    (hnd : (tasks.map (fun u => u.id)).Nodup) :
    (handle_task_complete agents tasks swarmId agentId taskId success).1.success = true ∧
    (handle_task_complete agents tasks swarmId agentId taskId success).1.status =
      some (if success then TaskStatus.COMPLETED else TaskStatus.FAILED) ∧
    ((handle_task_complete agents tasks swarmId agentId taskId success).2.2.find?
        (fun u => u.id == t.id) =
      some ⟨t.id, t.swarmId, t.title,
        (if success then TaskStatus.COMPLETED else TaskStatus.FAILED),
        t.priority, t.assignedTo, t.dependsOn⟩) ∧
    (∀ u ∈ (handle_task_complete agents tasks swarmId agentId taskId success).2.2,
      u.swarmId = swarmId → u.status = TaskStatus.PENDING →
      (∀ d ∈ u.dependsOn,
        ∃ c ∈ (handle_task_complete agents tasks swarmId agentId taskId success).2.2,
          c.id = d ∧ c.status = TaskStatus.COMPLETED) →
      u.id ∈ (handle_task_complete agents tasks swarmId agentId taskId success).2.1) ∧
    (∀ uid ∈ (handle_task_complete agents tasks swarmId agentId taskId success).2.1,
      ∃ u ∈ (handle_task_complete agents tasks swarmId agentId taskId success).2.2,
        u.id = uid ∧ u.swarmId = swarmId ∧ u.status = TaskStatus.PENDING ∧
        (∀ d ∈ u.dependsOn,
          ∃ c ∈ (handle_task_complete agents tasks swarmId agentId taskId success).2.2,
            c.id = d ∧ c.status = TaskStatus.COMPLETED)) := by
  have hmem : t ∈ tasks := List.mem_of_find?_eq_some ht
  have hid : tasks.find? (fun u => u.id == t.id) = some t := by
    have h := find?_keyed_of_mem_nodup (fun u : SwarmTask => u.id) tasks t hmem hnd
    simpa using h
  have hres : handle_task_complete agents tasks swarmId agentId taskId success =
      (⟨true, none, some taskId,
        some (if success then TaskStatus.COMPLETED else TaskStatus.FAILED)⟩,
       ((updateFirstBy (fun u => u.id == t.id)
          (fun u => ⟨u.id, u.swarmId, u.title,
            (if success then TaskStatus.COMPLETED else TaskStatus.FAILED),
            u.priority, u.assignedTo, u.dependsOn⟩) tasks).filter
          (fun v => v.swarmId == swarmId && v.status == TaskStatus.PENDING &&
            depsCompleted (updateFirstBy (fun u => u.id == t.id)
              (fun u => ⟨u.id, u.swarmId, u.title,
                (if success then TaskStatus.COMPLETED else TaskStatus.FAILED),
                u.priority, u.assignedTo, u.dependsOn⟩) tasks) v.dependsOn)).map
          (fun v => v.id),
       updateFirstBy (fun u => u.id == t.id)
          (fun u => ⟨u.id, u.swarmId, u.title,
            (if success then TaskStatus.COMPLETED else TaskStatus.FAILED),
            u.priority, u.assignedTo, u.dependsOn⟩) tasks) := by
    simp [handle_task_complete, complete_task, hag, ht]
  refine ⟨by rw [hres], by rw [hres], ?_, ?_, ?_⟩
  · rw [hres]
    dsimp only
    have h := find?_updateFirstBy_keyed (fun u : SwarmTask => u.id)
      (fun u => u.id == t.id)
      (fun u => ⟨u.id, u.swarmId, u.title,
        (if success then TaskStatus.COMPLETED else TaskStatus.FAILED),
        u.priority, u.assignedTo, u.dependsOn⟩) tasks t hid hnd (by simp)
    simpa using h
  · intro u hu hswarm hpend hdeps
    rw [hres] at hu hdeps ⊢
    dsimp only at hu hdeps ⊢
    exact (unblocked_tasks_characterization _ swarmId).1 u hu hswarm hpend hdeps
  · intro uid huid
    rw [hres] at huid ⊢
    dsimp only at huid ⊢
    exact (unblocked_tasks_characterization _ swarmId).2 uid huid

/-- Witness for task_complete_transitions_and_unblocked: completing T1
unblocks T2, which depends on it. -/
theorem task_complete_transitions_and_unblocked_witness :
    "T2" ∈ (handle_task_complete [⟨"A1", "S", "alice", true⟩]
      [⟨"T1", "S", "build", TaskStatus.IN_PROGRESS, 0, some "A1", []⟩,
       ⟨"T2", "S", "test", TaskStatus.PENDING, 0, none, ["T1"]⟩]
      "S" "alice" "T1" true).2.1 := by
  have h := task_complete_transitions_and_unblocked [⟨"A1", "S", "alice", true⟩]
    [⟨"T1", "S", "build", TaskStatus.IN_PROGRESS, 0, some "A1", []⟩,
     ⟨"T2", "S", "test", TaskStatus.PENDING, 0, none, ["T1"]⟩]
    "S" "alice" "T1" true ⟨"A1", "S", "alice", true⟩
    ⟨"T1", "S", "build", TaskStatus.IN_PROGRESS, 0, some "A1", []⟩
    rfl rfl (by decide)
  exact h.2.2.2.1 ⟨"T2", "S", "test", TaskStatus.PENDING, 0, none, ["T1"]⟩
    (by decide) rfl rfl (by decide)

/-- C8: an upload whose content hash equals the stored hash reports
unchanged, leaves the document table untouched and does not invoke the
index-invalidation callback; and whatever the first upload did, an
immediate repeat of the same upload reports unchanged with no further
change, so the operation is idempotent. -/
theorem upload_document_unchanged_idempotent
    (sha256 : String → String) (newId : String) (docs : List Document)
    (projectId path content : String)
    (hpath : path ≠ "") (hcontent : content ≠ "")
    (hsuffix : endsWithL path.data ".md".data ∨ endsWithL path.data ".txt".data ∨
      endsWithL path.data ".mdx".data)
    (hnd : (docs.map (fun d => d.id)).Nodup) :
    (∀ ex, docs.find? (fun d => d.projectId == projectId && d.path == path) = some ex →
      ex.hash = sha256 content →
      handle_upload_document sha256 newId docs projectId path content =
        ⟨UploadAction.unchanged, false, docs⟩) ∧
    (∀ newId2,
      handle_upload_document sha256 newId2
        (handle_upload_document sha256 newId docs projectId path content).docs
        projectId path content =
      ⟨UploadAction.unchanged, false,
        (handle_upload_document sha256 newId docs projectId path content).docs⟩) := by
  have hvalid : ¬ (path = "" ∨ content = "") := by
    intro h
    rcases h with h | h
    · exact hpath h
    · exact hcontent h
  have hsuf : ¬ ¬ (endsWithL path.data ".md".data ∨ endsWithL path.data ".txt".data ∨
      endsWithL path.data ".mdx".data) := not_not_intro hsuffix
  constructor
  · intro ex hfind hhash
    rw [handle_upload_document, if_neg hvalid, if_neg hsuf]
    simp only [hfind, hhash, if_true]
  · intro newId2
    cases hfind : docs.find? (fun d => d.projectId == projectId && d.path == path) with
    | some ex =>
        by_cases hh : ex.hash = sha256 content
        · have h1 : handle_upload_document sha256 newId docs projectId path content =
              ⟨UploadAction.unchanged, false, docs⟩ := by
            rw [handle_upload_document, if_neg hvalid, if_neg hsuf]
            simp only [hfind, hh, if_true]
          rw [h1]
          rw [handle_upload_document, if_neg hvalid, if_neg hsuf]
          simp only [hfind, hh, if_true]
        · have hPex : (ex.projectId == projectId && ex.path == path) = true := by
            simpa using List.find?_some hfind
          have h1 : handle_upload_document sha256 newId docs projectId path content =
              ⟨UploadAction.updated, true,
                updateFirstBy (fun d => d.id == ex.id)
                  (fun d => ⟨d.id, d.projectId, d.path, content, sha256 content,
                    content.utf8ByteSize⟩) docs⟩ := by
            rw [handle_upload_document, if_neg hvalid, if_neg hsuf]
            simp only [hfind, hh, if_false]
          have h2 := find?_updateFirstBy_keyed (fun d : Document => d.id)
            (fun d => d.projectId == projectId && d.path == path)
            (fun d => ⟨d.id, d.projectId, d.path, content, sha256 content,
              content.utf8ByteSize⟩) docs ex hfind hnd (by simpa using hPex)
          rw [h1]
          rw [handle_upload_document, if_neg hvalid, if_neg hsuf]
          simp only [h2, if_true]
    | none =>
        have h1 : handle_upload_document sha256 newId docs projectId path content =
            ⟨UploadAction.created, true,
              docs ++ [⟨newId, projectId, path, content, sha256 content,
                content.utf8ByteSize⟩]⟩ := by
          rw [handle_upload_document, if_neg hvalid, if_neg hsuf]
          simp only [hfind]
        have h2 : (docs ++ [(⟨newId, projectId, path, content, sha256 content,
            content.utf8ByteSize⟩ : Document)]).find?
              (fun d => d.projectId == projectId && d.path == path) =
            some ⟨newId, projectId, path, content, sha256 content, content.utf8ByteSize⟩ := by
          rw [find?_append_of_none _ _ _ hfind]
          exact List.find?_cons_of_pos _ (by simp)
        rw [h1]
        rw [handle_upload_document, if_neg hvalid, if_neg hsuf]
        simp only [h2, if_true]

/-- Witness for upload_document_unchanged_idempotent: a store already
holding the document with a matching hash. -/
theorem upload_document_unchanged_idempotent_witness :
    handle_upload_document (fun s => s) "n2" [⟨"d1", "p", "a.md", "c", "c", 1⟩]
      "p" "a.md" "c" = ⟨UploadAction.unchanged, false, [⟨"d1", "p", "a.md", "c", "c", 1⟩]⟩ :=
  (upload_document_unchanged_idempotent (fun s => s) "n1" [⟨"d1", "p", "a.md", "c", "c", 1⟩]
    "p" "a.md" "c" (by decide) (by decide) (by decide) (by decide)).1
    ⟨"d1", "p", "a.md", "c", "c", 1⟩ rfl rfl

/-- C9 counterexample: an exception whose string is exactly the generic
fallback message is returned verbatim although it contains none of the
enumerated safe substrings, so verbatim-return is not equivalent to
containing a safe substring. -/
theorem sanitize_error_message_iff_counterexample :
    sanitize_error_message genericErrorMessage = genericErrorMessage ∧
    safePatterns.any
      (fun p => containsSub (lowerL genericErrorMessage.data) (lowerL p.data)) = false := by
  have h : safePatterns.any
      (fun p => containsSub (lowerL genericErrorMessage.data) (lowerL p.data)) = false := by
    decide
  refine ⟨?_, h⟩
  rw [sanitize_error_message, if_neg (by simp [h])]

/-- C9 as amended: sanitize_error_message returns the error string
verbatim whenever it contains one of the enumerated safe substrings
case-insensitively, and the fixed generic message otherwise (the two
outputs coincide only in the degenerate case of an error string equal to
the generic message). -/
theorem sanitize_error_message_allowlist (s : String) :
    (safePatterns.any (fun p => containsSub (lowerL s.data) (lowerL p.data)) = true →
      sanitize_error_message s = s) ∧
    (safePatterns.any (fun p => containsSub (lowerL s.data) (lowerL p.data)) = false →
      sanitize_error_message s = genericErrorMessage) := by
  constructor
  · intro h
    rw [sanitize_error_message, if_pos h]
  · intro h
    rw [sanitize_error_message, if_neg (by simp [h])]

/-- Witness for sanitize_error_message_allowlist: a safe message passes
through and an unsafe one is replaced. -/
theorem sanitize_error_message_allowlist_witness :
    sanitize_error_message "Invalid API key: abc" = "Invalid API key: abc" ∧
    sanitize_error_message "boom" = genericErrorMessage :=
  ⟨(sanitize_error_message_allowlist "Invalid API key: abc").1 (by decide),
   (sanitize_error_message_allowlist "boom").2 (by decide)⟩

/-- Budget invariant of the non-abstract walk: tokens already used plus
everything still delivered stay within the budget. -/
theorem assembleGo_false_le (B : Nat) :
    ∀ (l : List (String × Nat)) (used cnt : Nat), used ≤ B →
      used + totalTokens (assembleGo B false used cnt l) ≤ B := by
  intro l
  induction l with
  | nil =>
      intro used cnt h
      simpa [assembleGo, totalTokens] using h
  | cons p rest ih =>
      intro used cnt h
      obtain ⟨sid, t⟩ := p
      simp only [assembleGo]
      by_cases h1 : used + t ≤ B
      · rw [if_pos h1]
        have h2 := ih (used + t) (cnt + 1) h1
        simp only [totalTokens, List.map_cons, List.sum_cons] at h2 ⊢
        omega
      · rw [if_neg h1, if_neg (by simp)]
        by_cases h2 : used < B
        · rw [if_pos h2]
          simp only [totalTokens, List.map_cons, List.sum_cons, List.map_nil, List.sum_nil]
          omega
        · rw [if_neg h2]
          simpa [totalTokens] using h

/-- Budget invariant of the abstract walk: the 20 percent over-run bound
holds throughout. -/
theorem assembleGo_true_le (B : Nat) :
    ∀ (l : List (String × Nat)) (used cnt : Nat), used ≤ B →
      10 * (used + totalTokens (assembleGo B true used cnt l)) ≤ 12 * B := by
  intro l
  induction l with
  | nil =>
      intro used cnt h
      simp only [assembleGo, totalTokens, List.map_nil, List.sum_nil]
      omega
  | cons p rest ih =>
      intro used cnt h
      obtain ⟨sid, t⟩ := p
      simp only [assembleGo]
      by_cases h1 : used + t ≤ B
      · rw [if_pos h1]
        have h2 := ih (used + t) (cnt + 1) h1
        simp only [totalTokens, List.map_cons, List.sum_cons] at h2 ⊢
        omega
      · rw [if_neg h1]
        by_cases h3 : cnt < 5 ∧ 10 * (used + t) ≤ 12 * B
        · rw [if_pos (by simpa using h3)]
          simp only [totalTokens, List.map_cons, List.sum_cons, List.map_nil, List.sum_nil]
          omega
        · rw [if_neg (by simpa using h3)]
          by_cases h2 : used < B
          · rw [if_pos h2]
            simp only [totalTokens, List.map_cons, List.sum_cons, List.map_nil, List.sum_nil]
            omega
          · rw [if_neg h2]
            simp only [totalTokens, List.map_nil, List.sum_nil]
            omega

/-- C1 as amended: the assembled result of the spec-modelled budget walk
stays within the budget for non-abstract queries, and within 1.2 times
the budget for abstract queries (where at most one over-budget section
is accepted while fewer than 5 sections are delivered); the minimum of
5 delivered sections is a target, bounded by what is ranked. -/
theorem assemble_budget_bounds (B : Nat) (ranked : List (String × Nat)) :
    totalTokens (assembleSections B false ranked) ≤ B ∧
    10 * totalTokens (assembleSections B true ranked) ≤ 12 * B := by
  constructor
  · have h := assembleGo_false_le B ranked 0 0 (Nat.zero_le B)
    simpa [assembleSections] using h
  · have h := assembleGo_true_le B ranked 0 0 (Nat.zero_le B)
    simpa [assembleSections] using h

/-- C1 counterexample: an abstract query over a single ranked section
delivers one section, not the claimed minimum of five. -/
theorem assemble_min_sections_counterexample :
    (assembleSections 100 true [("s1", 10)]).length = 1 ∧ (1 : Nat) < 5 := by
  constructor
  · rfl
  · decide

/-- C5: every entry of the fusion result scores as the weighted
reciprocal-rank formula at k = 45 over the two rankings, the result is
sorted descending, and its ids are exactly the union of the ids of the
keyword and semantic rankings. -/
theorem rrf_fusion_formula_sorted
    (keyword_scores semantic_scores : List (String × ℚ)) (wk ws : ℚ) :
    (∀ p ∈ rrf_fusion keyword_scores semantic_scores wk ws 45,
      p.2 = wk / (45 + (rankOf (posRanked keyword_scores) p.1 : ℚ)) +
        ws / (45 + (rankOf (posRanked semantic_scores) p.1 : ℚ))) ∧
    (rrf_fusion keyword_scores semantic_scores wk ws 45).Sorted scoreGe ∧
    (∀ sid : String,
      (∃ q, (sid, q) ∈ rrf_fusion keyword_scores semantic_scores wk ws 45) ↔
      (sid ∈ (posRanked keyword_scores).map Prod.fst ∨
       sid ∈ (posRanked semantic_scores).map Prod.fst)) := by
  refine ⟨?_, List.sorted_insertionSort scoreGe _, ?_⟩
  · intro p hp
    have hp2 := (List.perm_insertionSort scoreGe _).subset hp
    obtain ⟨sid, _, rfl⟩ := List.mem_map.mp hp2
    rfl
  · intro sid
    have hperm := List.perm_insertionSort scoreGe
      (((posRanked keyword_scores).map Prod.fst ++
        ((posRanked semantic_scores).map Prod.fst).filter
          (fun x => ¬ ((posRanked keyword_scores).map Prod.fst).contains x)).map
        (fun x => (x, wk / (45 + (rankOf (posRanked keyword_scores) x : ℚ)) +
          ws / (45 + (rankOf (posRanked semantic_scores) x : ℚ)))))
    constructor
    · rintro ⟨q, hq⟩
      have h2 := hperm.subset hq
      obtain ⟨x, hx, hx2⟩ := List.mem_map.mp h2
      obtain rfl : x = sid := congrArg Prod.fst hx2
      rcases List.mem_append.mp hx with h | h
      · exact Or.inl h
      · exact Or.inr (List.mem_filter.mp h).1
    · intro h
      have hmem : sid ∈ (posRanked keyword_scores).map Prod.fst ++
          ((posRanked semantic_scores).map Prod.fst).filter
            (fun x => ¬ ((posRanked keyword_scores).map Prod.fst).contains x) := by
        by_cases hkw : sid ∈ (posRanked keyword_scores).map Prod.fst
        · exact List.mem_append.mpr (Or.inl hkw)
        · rcases h with h | h
          · exact absurd h hkw
          · refine List.mem_append.mpr (Or.inr (List.mem_filter.mpr ⟨h, ?_⟩))
            simpa using hkw
      refine ⟨wk / (45 + (rankOf (posRanked keyword_scores) sid : ℚ)) +
        ws / (45 + (rankOf (posRanked semantic_scores) sid : ℚ)), ?_⟩
      exact hperm.symm.subset (List.mem_map.mpr ⟨sid, hmem, rfl⟩)

/-- Witness for rrf_fusion_formula_sorted at empty rankings. -/
theorem rrf_fusion_formula_sorted_witness :
    ¬ (∃ q : ℚ, ("a", q) ∈ rrf_fusion [] [] 1 1 45) := by
  intro h
  have h2 := (rrf_fusion_formula_sorted [] [] 1 1).2.2 "a"
  have h3 := h2.mp h
  simp [posRanked] at h3

/-- The half-even rounding stays within one unit above the floor. -/
theorem rndHalfEven_bounds (x : ℚ) :
    ⌊x⌋ ≤ rndHalfEven x ∧ rndHalfEven x ≤ ⌊x⌋ + 1 := by
  rw [rndHalfEven]
  split_ifs <;> omega

/-- Monotonicity of the half-even rounding. -/
theorem rndHalfEven_mono {x y : ℚ} (h : x ≤ y) : rndHalfEven x ≤ rndHalfEven y := by
  by_cases hf : ⌊x⌋ = ⌊y⌋
  · have hxy : x - ⌊x⌋ ≤ y - ⌊x⌋ := by linarith
    rw [rndHalfEven, rndHalfEven, ← hf]
    split_ifs with h1 h2 h3 h4 h5 h6 h7 h8 <;> try omega
    all_goals linarith
  · have hlt : ⌊x⌋ < ⌊y⌋ := lt_of_le_of_ne (Int.floor_le_floor h) hf
    calc rndHalfEven x ≤ ⌊x⌋ + 1 := (rndHalfEven_bounds x).2
      _ ≤ ⌊y⌋ := by omega
      _ ≤ rndHalfEven y := (rndHalfEven_bounds y).1

/-- Monotonicity of the one-decimal rounding. -/
theorem pyRound1_mono {x y : ℚ} (h : x ≤ y) : pyRound1 x ≤ pyRound1 y := by
  rw [pyRound1, pyRound1]
  have h2 : rndHalfEven (10 * x) ≤ rndHalfEven (10 * y) :=
    rndHalfEven_mono (by linarith)
  have h3 : (rndHalfEven (10 * x) : ℚ) ≤ (rndHalfEven (10 * y) : ℚ) := by exact_mod_cast h2
  linarith

/-- Rounding 100 to one decimal gives 100. -/
theorem pyRound1_hundred : pyRound1 100 = 100 := by
  have h : rndHalfEven (10 * 100) = 1000 := by
    rw [rndHalfEven]
    norm_num
  rw [pyRound1, h]
  norm_num

/-- Every grade of the tail loop is at least 1. -/
theorem gradeAt_one_le (top d : ℚ) (i : Nat) (raw : ℚ) : 1 ≤ gradeAt top d i raw :=
  le_max_right _ _

/-- A tail grade never exceeds 100 when the raw score does not exceed
the positive top score and the decay factor lies in the unit interval. -/
theorem gradeAt_le_100 (top d : ℚ) (i : Nat) (raw : ℚ)
    (htop : 0 < top) (hd0 : 0 ≤ d) (hd1 : d ≤ 1) (hraw : raw ≤ top) :
    gradeAt top d i raw ≤ 100 := by
  rw [gradeAt]
  have hpow : d ^ i ≤ 1 := pow_le_one₀ hd0 hd1
  have hsf : raw / top ≤ 1 := (div_le_one htop).mpr hraw
  have harg : 100 * ((2 : ℚ)/5 * d ^ i + 3/5 * (if 0 < top then raw / top else 0)) ≤ 100 := by
    rw [if_pos htop]
    nlinarith
  have h2 : pyRound1 (100 * ((2 : ℚ)/5 * d ^ i + 3/5 * (if 0 < top then raw / top else 0))) ≤
      pyRound1 100 := pyRound1_mono harg
  rw [pyRound1_hundred] at h2
  exact max_le h2 (by norm_num)

/-- Grades shrink along the tail: a later index and a smaller raw score
give a grade no larger. -/
theorem gradeAt_mono (top d : ℚ) (i j : Nat) (raw1 raw2 : ℚ)
    (htop : 0 < top) (hd0 : 0 ≤ d) (hd1 : d ≤ 1) (hij : i ≤ j) (hraw : raw2 ≤ raw1) :
    gradeAt top d j raw2 ≤ gradeAt top d i raw1 := by
  rw [gradeAt, gradeAt]
  have hpow : d ^ j ≤ d ^ i := pow_le_pow_of_le_one hd0 hd1 hij
  have hsf : raw2 / top ≤ raw1 / top := div_le_div_of_nonneg_right hraw htop.le
  refine max_le_max (pyRound1_mono ?_) le_rfl
  rw [if_pos htop, if_pos htop]
  nlinarith

/-- All grades produced by the tail loop are at least 1. -/
theorem normGo_mem_one_le (top d : ℚ) :
    ∀ (i : Nat) (l : List (String × ℚ)), ∀ p ∈ normGo top d i l, 1 ≤ p.2 := by
  intro i l
  induction l generalizing i with
  | nil => intro p hp; simp [normGo] at hp
  | cons a rest ih =>
      intro p hp
      obtain ⟨sid, raw⟩ := a
      rw [normGo] at hp
      rcases List.mem_cons.mp hp with rfl | hmem
      · exact gradeAt_one_le top d i raw
      · exact ih (i + 1) p hmem

/-- The tail loop preserves descending order of the scores. -/
theorem normGo_chain (top d : ℚ) (htop : 0 < top) (hd0 : 0 ≤ d) (hd1 : d ≤ 1) :
    ∀ (i : Nat) (l : List (String × ℚ)), l.Chain' (fun a b => b.2 ≤ a.2) →
      (normGo top d i l).Chain' (fun a b => b.2 ≤ a.2) := by
  intro i l
  induction l generalizing i with
  | nil => intro _; simp [normGo]
  | cons a rest ih =>
      intro hch
      obtain ⟨sid, raw⟩ := a
      cases rest with
      | nil => simp [normGo]
      | cons b rest2 =>
          obtain ⟨sid2, raw2⟩ := b
          have hch2 := List.chain'_cons.mp hch
          rw [normGo, normGo, List.chain'_cons]
          constructor
          · exact gradeAt_mono top d i (i + 1) raw raw2 htop hd0 hd1 (Nat.le_succ i) hch2.1
          · have h2 := ih (i + 1) hch2.2
            rw [normGo] at h2
            exact h2

/-- C6: on a non-empty descending input, normalize_scores_graded at the
default decay 0.94 gives the first entry grade exactly 100, every later
grade at least 1, and non-increasing grades down the list. -/
theorem normalize_scores_graded_ordering
    (scores : List (String × ℚ))
    (hne : scores ≠ [])
    (hsorted : scores.Chain' (fun a b => b.2 ≤ a.2)) :
    ((normalize_scores_graded scores (94/100)).head?.map Prod.snd = some 100) ∧
    (∀ p ∈ (normalize_scores_graded scores (94/100)).tail, 1 ≤ p.2) ∧
    (normalize_scores_graded scores (94/100)).Chain' (fun a b => b.2 ≤ a.2) := by
  have hd0 : (0 : ℚ) ≤ 94/100 := by norm_num
  have hd1 : (94 : ℚ)/100 ≤ 1 := by norm_num
  cases scores with
  | nil => exact absurd rfl hne
  | cons a rest =>
      obtain ⟨sid, s⟩ := a
      have htop : 0 < (if 0 < s then s else 1) := by
        split_ifs with h
        · exact h
        · norm_num
      refine ⟨rfl, ?_, ?_⟩
      · intro p hp
        rw [normalize_scores_graded] at hp
        exact normGo_mem_one_le _ _ 1 rest p hp
      · rw [normalize_scores_graded]
        cases rest with
        | nil => simp [normGo]
        | cons b rest2 =>
            obtain ⟨sid2, raw2⟩ := b
            have hch2 := List.chain'_cons.mp hsorted
            have hraw2 : raw2 ≤ (if 0 < s then s else 1) := by
              split_ifs with h
              · exact hch2.1
              · have hs : s ≤ 0 := le_of_not_lt h
                have := hch2.1
                linarith
            rw [normGo, List.chain'_cons]
            constructor
            · exact gradeAt_le_100 _ _ 1 raw2 htop hd0 hd1 hraw2
            · have h3 := normGo_chain _ _ htop hd0 hd1 1 ((sid2, raw2) :: rest2) hch2.2
              rw [normGo] at h3
              exact h3

/-- Witness for normalize_scores_graded_ordering on a two-entry list. -/
theorem normalize_scores_graded_ordering_witness :
    (normalize_scores_graded [("a", 10), ("b", 5)] (94/100)).head?.map Prod.snd =
      some 100 :=
  (normalize_scores_graded_ordering [("a", 10), ("b", 5)] (by simp)
    (by norm_num [List.chain'_cons])).1


/-- C4 counterexample: for the keyword pricing, ubiquitous in the index
(ubiquitous set containing it) but absent from the static generic-term
set, the source scorer pays the full 5.0 title weight while the spec
title-weight rule pays 1.5, so the two disagree on this section. -/
theorem title_weight_ubiquitous_counterexample :
    calculate_keyword_score ⟨"s1", "Pricing", "", 1, 2, 2⟩ ["pricing".data] ≠
      calculate_keyword_score_spec ["pricing".data] ⟨"s1", "Pricing", "", 1, 2, 2⟩
        ["pricing".data] := by
  have e1 : lowerL (String.data "Pricing") = String.data "pricing" := rfl
  have e2 : lowerL (String.data "") = ([] : List Char) := rfl
  have e3 : stem_keyword (String.data "pricing") = String.data "pric" := rfl
  have e4 : effCount (String.data "pricing") (String.data "pricing") (String.data "pric") = 1 := rfl
  have e5 : effCount ([] : List Char) (String.data "pricing") (String.data "pric") = 0 := rfl
  have e6 : ¬ (['p', 'r', 'i', 'c', 'i', 'n', 'g'] ∈ GENERIC_TITLE_TERMS) := by decide
  have e7 : ¬ (['p', 'r', 'i', 'c'] ∈ GENERIC_TITLE_TERMS) := by decide
  have e9 : (String.data "pricing").length = 7 := rfl
  have hL : calculate_keyword_score ⟨"s1", "Pricing", "", 1, 2, 2⟩ ["pricing".data] = 6 := by
    norm_num [calculate_keyword_score, kwScoreStep, e1, e2, e3, e4, e5, e6, e7, e9,
      List.filter]
  have hR : calculate_keyword_score_spec ["pricing".data] ⟨"s1", "Pricing", "", 1, 2, 2⟩
      ["pricing".data] = 5/2 := by
    norm_num [calculate_keyword_score_spec, kwScoreStepSpec, e1, e2, e3, e4, e5, e6, e7, e9,
      List.filter]
  rw [hL, hR]
  norm_num

/-- C4 as amended: in calculate_keyword_score, a single surviving
keyword scores its effective title occurrences at weight 5.0 unless the
keyword or its stem lies in the static generic-term set, in which case
the weight is 1.5; the ubiquitous-keyword set of the index plays no role
in the weighting. -/
theorem calculate_keyword_score_title_weight
    (s : Section) (kw : List Char) (hlen : 2 ≤ kw.length) :
    calculate_keyword_score s [kw] =
      (let titleL := lowerL s.title.data
       let contentL := lowerL s.content.data
       let stem := stem_keyword kw
       let tc := effCount titleL kw stem
       let cc := effCount contentL kw stem
       let w : ℚ := if GENERIC_TITLE_TERMS.contains kw ∨ GENERIC_TITLE_TERMS.contains stem
         then 3/2 else 5
       let base := (if 0 < tc then (tc : ℚ) * w else 0) +
         (cc : ℚ) * lengthNormOf contentL.length
       if 0 < base then base + ((4 - s.level : Nat) : ℚ) * (1/2) else base) := by
  have hlen2 : ¬ (kw.length < 2) := by omega
  rw [calculate_keyword_score]
  simp only [List.foldl_cons, List.foldl_nil, kwScoreStep, List.filter_cons, List.filter_nil]
  by_cases htc : 0 < effCount (lowerL s.title.data) kw (stem_keyword kw) <;>
  by_cases hgen : (kw ∈ GENERIC_TITLE_TERMS ∨ stem_keyword kw ∈ GENERIC_TITLE_TERMS) <;>
  by_cases h3 : 3 ≤ kw.length <;>
    simp [hlen2, htc, hgen, h3, zero_add]

/-- Witness for calculate_keyword_score_title_weight at a concrete
section and keyword. -/
theorem calculate_keyword_score_title_weight_witness :
    2 ≤ (String.data "pricing").length ∧
    calculate_keyword_score ⟨"s1", "Pricing", "", 1, 2, 2⟩ ["pricing".data] =
      (let titleL := lowerL (String.data "Pricing")
       let contentL := lowerL (String.data "")
       let stem := stem_keyword (String.data "pricing")
       let tc := effCount titleL (String.data "pricing") stem
       let cc := effCount contentL (String.data "pricing") stem
       let w : ℚ := if GENERIC_TITLE_TERMS.contains (String.data "pricing") ∨
           GENERIC_TITLE_TERMS.contains stem then 3/2 else 5
       let base := (if 0 < tc then (tc : ℚ) * w else 0) +
         (cc : ℚ) * lengthNormOf contentL.length
       if 0 < base then base + ((4 - 2 : Nat) : ℚ) * (1/2) else base) :=
  ⟨by decide,
   calculate_keyword_score_title_weight ⟨"s1", "Pricing", "", 1, 2, 2⟩
     (String.data "pricing") (by decide)⟩
